/-
Verification of the calendar export parsing engine (client/datestack/sync.py).

Text is modelled as `List Char`.  Python `str.strip`, `str.split`,
`str.startswith`, `in` and `str.lower` are embedded as executable functions on
character lists.  The external flexible date/time parser (`dateutil`) is not
part of this repository; following the design notes it is modelled as a pure
pluggable capability returning an optional instant.
-/
import Mathlib

set_option linter.unusedVariables false

namespace Datestack

/-- Characters treated as whitespace by Python `str.strip`. -/
def isPySpace (c : Char) : Bool :=
  c = ' ' || c = Char.ofNat 9 || c = Char.ofNat 10 || c = Char.ofNat 13 ||
  c = Char.ofNat 11 || c = Char.ofNat 12

/-- Python `str.strip()`: remove leading and trailing whitespace. -/
def pyStrip (xs : List Char) : List Char :=
  ((xs.dropWhile isPySpace).reverse.dropWhile isPySpace).reverse

/-- Python `str.lower()` (ASCII case folding suffices for this engine). -/
def pyLower (xs : List Char) : List Char :=
  xs.map Char.toLower

/-- Python `s.split(sep, 1)` restricted to the found case: the text before the
first occurrence of `sep` and the text after it. -/
def splitFirst (sep : List Char) : List Char → Option (List Char × List Char)
  | [] => none
  | c :: rest =>
    if sep.isPrefixOf (c :: rest) then some ([], (c :: rest).drop sep.length)
    else
      match splitFirst sep rest with
      | some (pre, post) => some (c :: pre, post)
      | none => none

/-- Python's `sep in s` substring test. -/
def containsSub (sep : List Char) : List Char → Bool
  | [] => sep.isEmpty
  | c :: rest => sep.isPrefixOf (c :: rest) || containsSub sep rest

/-- Fuelled worker for Python `str.split(sep)` (non-empty separator). -/
def splitOnFuel (sep : List Char) : Nat → List Char → List (List Char)
  | _, [] => [[]]
  | 0, xs => [xs]
  | fuel + 1, x :: xs =>
    if sep.isPrefixOf (x :: xs) then
      [] :: splitOnFuel sep fuel ((x :: xs).drop sep.length)
    else
      match splitOnFuel sep fuel xs with
      | [] => [[x]]
      | h :: t => (x :: h) :: t

/-- Python `s.split(sep)`: split on every occurrence of `sep`. -/
def splitOnL (sep xs : List Char) : List (List Char) :=
  splitOnFuel sep xs.length xs

/-! ### ANSI sanitizer (sync.py lines 14-19)

The compiled pattern is ESC followed by either a single byte in `0x40`-`0x5A`
or `0x5C`-`0x5F`, or by a CSI sequence: a literal bracket, parameter bytes
`0x30`-`0x3F`, intermediate bytes `0x20`-`0x2F` and one final byte
`0x40`-`0x7E`.  The code performs a regex substitution with the empty string:
scan left to right, remove each non-overlapping leftmost match. -/

/-- The escape character `\x1B`. -/
def esc : Char := Char.ofNat 27

/-- Character class `[@-Z\\-_]` of the pattern: `0x40`-`0x5A` or `0x5C`-`0x5F`. -/
def isFeByte (c : Char) : Bool :=
  (64 ≤ c.toNat && c.toNat ≤ 90) || (92 ≤ c.toNat && c.toNat ≤ 95)

/-- Character class `[0-?]` (CSI parameter bytes `0x30`-`0x3F`). -/
def isCsiParam (c : Char) : Bool := 48 ≤ c.toNat && c.toNat ≤ 63

/-- Character class of CSI intermediate bytes `0x20`-`0x2F`. -/
def isCsiInter (c : Char) : Bool := 32 ≤ c.toNat && c.toNat ≤ 47

/-- Character class `[@-~]` (CSI final bytes `0x40`-`0x7E`). -/
def isCsiFinal (c : Char) : Bool := 64 ≤ c.toNat && c.toNat ≤ 126

/-- Try to match the ANSI pattern at the head of the input; on success return
the remaining input after the match.  The two regex alternatives have disjoint
first characters and the three CSI classes are pairwise disjoint, so greedy
matching without backtracking is exact. -/
def matchAnsi : List Char → Option (List Char)
  | e :: c :: rest =>
    if e = esc then
      if isFeByte c then some rest
      else if c = '[' then
        let r1 := rest.dropWhile isCsiParam
        let r2 := r1.dropWhile isCsiInter
        match r2 with
        | f :: r3 => if isCsiFinal f then some r3 else none
        | [] => none
      else none
    else none
  | _ => none

/-- Fuelled worker for `re.sub` with the ANSI pattern: each step either removes
a match starting at the head or keeps the head character. -/
def stripAnsiFuel : Nat → List Char → List Char
  | _, [] => []
  | 0, xs => xs
  | fuel + 1, x :: xs =>
    match matchAnsi (x :: xs) with
    | some rest => stripAnsiFuel fuel rest
    | none => x :: stripAnsiFuel fuel xs

/-- `strip_ansi` (sync.py line 17): remove ANSI escape codes from text. -/
def strip_ansi (text : List Char) : List Char :=
  stripAnsiFuel text.length text

/-! ### Flexible date/time parsing (external capability) -/

/-- A parsed instant, as produced by the flexible date/time parser. -/
structure PyDateTime where
  year : Nat
  month : Nat
  day : Nat
  hour : Nat
  minute : Nat
  second : Nat
deriving DecidableEq

/-- Numeric value of a decimal digit character. -/
def dVal (c : Char) : Nat := c.toNat - 48

/-- Two decimal digits as a number. -/
def digits2 (a b : Char) : Option Nat :=
  if a.isDigit && b.isDigit then some (10 * dVal a + dVal b) else none

/-- Four decimal digits as a number. -/
def digits4 (a b c d : Char) : Option Nat :=
  if a.isDigit && b.isDigit && c.isDigit && d.isDigit then
    some (1000 * dVal a + 100 * dVal b + 10 * dVal c + dVal d)
  else none

/-- Parse a leading `YYYY-MM-DD` date, returning the remaining input. -/
def parseISODate : List Char → Option (Nat × Nat × Nat × List Char)
  | y1 :: y2 :: y3 :: y4 :: '-' :: m1 :: m2 :: '-' :: d1 :: d2 :: rest =>
    match digits4 y1 y2 y3 y4, digits2 m1 m2, digits2 d1 d2 with
    | some y, some m, some d =>
      if 1 ≤ m && m ≤ 12 && 1 ≤ d && d ≤ 31 then some (y, m, d, rest) else none
    | _, _, _ => none
  | _ => none

/-- Parse a complete `HH:MM` or `HH:MM:SS` time-of-day. -/
def parseISOTime : List Char → Option (Nat × Nat × Nat)
  | [h1, h2, ':', n1, n2] =>
    match digits2 h1 h2, digits2 n1 n2 with
    | some h, some n => if h ≤ 23 && n ≤ 59 then some (h, n, 0) else none
    | _, _ => none
  | [h1, h2, ':', n1, n2, ':', s1, s2] =>
    match digits2 h1 h2, digits2 n1 n2, digits2 s1 s2 with
    | some h, some n, some s =>
      if h ≤ 23 && n ≤ 59 && s ≤ 59 then some (h, n, s) else none
    | _, _, _ => none
  | _ => none

/-- Modelled from the spec: the external flexible date/time parser used by the
Datetime Range Resolver (`dateutil.parser.parse` in the source, which is not
part of this repository).  Per the design notes it is a pluggable capability
`parse_flexible_datetime(text) -> optional(instant)` accepting full ISO-8601
date-times and bare dates, and returning a structured failure (not an
exception) on unrecognized input; a bare time-of-day alone determines no
instant, which is what makes the resolver's retry with the start's date
meaningful. -/
def parse_flexible_datetime (s : List Char) : Option PyDateTime :=
  match parseISODate s with
  | some (y, m, d, rest) =>
    match rest with
    | [] => some ⟨y, m, d, 0, 0, 0⟩
    | 'T' :: tpart =>
      match parseISOTime tpart with
      | some (h, n, sec) => some ⟨y, m, d, h, n, sec⟩
      | none => none
    | _ => none
  | none => none

/-- Decimal digits of `n`, left-padded with zeros to the given width. -/
def padNum (width n : Nat) : List Char :=
  let ds := Nat.toDigits 10 n
  List.replicate (width - ds.length) '0' ++ ds

/-- Python `datetime.date()` rendered as `YYYY-MM-DD`. -/
def dateStr (dt : PyDateTime) : List Char :=
  padNum 4 dt.year ++ ['-'] ++ padNum 2 dt.month ++ ['-'] ++ padNum 2 dt.day

/-- Python `datetime.isoformat()`: `YYYY-MM-DDTHH:MM:SS`. -/
def isoformat (dt : PyDateTime) : List Char :=
  dateStr dt ++ ['T'] ++ padNum 2 dt.hour ++ [':'] ++ padNum 2 dt.minute ++
    [':'] ++ padNum 2 dt.second

/-! ### Datetime range resolver (sync.py lines 231-283) -/

/-- The `" at "` prefix removal (sync.py lines 245-247): if the string contains
`" at "`, keep only the (stripped) text after the first occurrence. -/
def afterAt (datetime_str : List Char) : List Char :=
  match splitFirst " at ".data datetime_str with
  | some (_, post) => pyStrip post
  | none => datetime_str

/-- `parse_datetime_range` (sync.py lines 231-283): parse a datetime string
into optional start and end ISO strings.  The `all_day` flag is accepted but
not consulted, exactly as in the source. -/
def parse_datetime_range (datetime_str : List Char) (all_day : Bool) :
    Option (List Char) × Option (List Char) :=
  let s := afterAt datetime_str
  match splitFirst " - ".data s with
  | some (p0, p1) =>
    let start_str := pyStrip p0
    let end_str := pyStrip p1
    match parse_flexible_datetime start_str with
    | none => (none, none)
    | some start_dt =>
      let start_iso := isoformat start_dt
      if end_str ≠ [] then
        let end_dt :=
          match parse_flexible_datetime end_str with
          | some e => some e
          | none => parse_flexible_datetime (dateStr start_dt ++ ['T'] ++ end_str)
        match end_dt with
        | some e => (some start_iso, some (isoformat e))
        | none => (some start_iso, none)
      else (some start_iso, none)
  | none =>
    match parse_flexible_datetime s with
    | some dt => (some (isoformat dt), none)
    | none => (none, none)

/-! ### Event records and the icalBuddy output parser (sync.py lines 116-228) -/

/-- The event dictionary built for each fragment (sync.py lines 191-200). -/
structure Event where
  title : List Char
  all_day : Bool
  external_id : Option (List Char)
  start_time : Option (List Char)
  end_time : Option (List Char)
  location : Option (List Char)
  notes : Option (List Char)
  calendar_name : Option (List Char)
deriving DecidableEq

/-- One iteration of the labeled-property loop (sync.py lines 210-222). -/
def applyProp (event : Event) (prop0 : List Char) : Event :=
  let prop := pyStrip prop0
  if prop = [] then event
  else
    let prop_lower := pyLower prop
    if "location:".data.isPrefixOf prop_lower then
      { event with location := some (pyStrip (prop.drop 9)) }
    else if "notes:".data.isPrefixOf prop_lower then
      { event with notes := some (pyStrip (prop.drop 6)) }
    else if "uid:".data.isPrefixOf prop_lower then
      { event with external_id := some (pyStrip (prop.drop 4)) }
    else event

/-- Python truthiness of an optional string: present and non-empty. -/
def pyTruthyOpt : Option (List Char) → Bool
  | none => false
  | some s => !s.isEmpty

/-- Parse one `|||`-fragment into an event (sync.py lines 181-226): returns
`none` for fragments that are dropped (blank, fewer than 2 fields, or no
truthy start time). -/
def parseChunk (all_day : Bool) (calendar_name : Option (List Char))
    (chunk0 : List Char) : Option Event :=
  let chunk := pyStrip chunk0
  if chunk = [] then none
  else
    let props := splitOnL " :: ".data chunk
    if props.length < 2 then none
    else
      let p0 := props.headD []
      let title := if p0 ≠ [] then pyStrip p0 else "Untitled".data
      let p1 := props.getD 1 []
      let se :=
        if p1 ≠ [] then parse_datetime_range (pyStrip p1) all_day
        else (none, none)
      let event0 : Event :=
        ⟨title, all_day, none, se.1, se.2, none, none, calendar_name⟩
      let event := (props.drop 2).foldl applyProp event0
      if pyTruthyOpt event.start_time then some event else none

/-- Continuation folding (sync.py lines 162-171): append following lines that
are blank or indented with at least 7 spaces, joined with a single space after
stripping; return the assembled record text and the unconsumed lines. -/
def foldCont (event_line : List Char) : List (List Char) →
    List Char × List (List Char)
  | [] => (event_line, [])
  | next_line :: rest =>
    if "       ".data.isPrefixOf next_line || pyStrip next_line = [] then
      foldCont (event_line ++ (' ' :: pyStrip next_line)) rest
    else (event_line, next_line :: rest)

/-- The separator-line test of the code (sync.py line 149): the stripped line
starts with three dashes. -/
def isSeparatorLineCode (line : List Char) : Bool :=
  "---".data.isPrefixOf line

/-- The calendar-header test of the code (sync.py line 155): ends with a colon
and contains neither the bullet delimiter nor the property delimiter. -/
def isHeaderLine (line : List Char) : Bool :=
  (line.getLast? = some ':') && !(containsSub "|||".data line) &&
    !(containsSub " :: ".data line)

/-- Fuelled worker for the line-classification loop (sync.py lines 139-174). -/
def assembleFuel : Nat → Option (List Char) → List (List Char) →
    List (Option (List Char) × List Char)
  | _, _, [] => []
  | 0, _, _ :: _ => []
  | fuel + 1, current_calendar, l :: rest =>
    if pyStrip l = [] then assembleFuel fuel current_calendar rest
    else if isSeparatorLineCode (pyStrip l) then
      assembleFuel fuel current_calendar rest
    else if isHeaderLine (pyStrip l) then
      assembleFuel fuel (some (pyStrip (pyStrip l).dropLast)) rest
    else
      (current_calendar, (foldCont (pyStrip l) rest).1) ::
        assembleFuel fuel current_calendar (foldCont (pyStrip l) rest).2

/-- The line classifier / chunk assembler: emits `(calendar_name, record)`
pairs, the calendar name being the one current when the record began. -/
def assemble (current_calendar : Option (List Char))
    (lines : List (List Char)) : List (Option (List Char) × List Char) :=
  assembleFuel lines.length current_calendar lines

/-- `parse_icalbuddy_output` (sync.py lines 116-228): parse raw icalBuddy
output into event records. -/
def parse_icalbuddy_output (output : List Char) (all_day : Bool) : List Event :=
  if pyStrip output = [] then []
  else
    let out := strip_ansi output
    let lines := splitOnL ['\n'] out
    let processed_parts := assemble none lines
    processed_parts.flatMap fun part =>
      (splitOnL "|||".data part.2).filterMap (parseChunk all_day part.1)

/-- `filter_events` (sync.py lines 286-297): drop events whose lower-cased
title contains any lower-cased excluded keyword. -/
def filter_events (events : List Event) (exclude_keywords : List (List Char)) :
    List Event :=
  if exclude_keywords = [] then events
  else
    events.filter fun event =>
      let title := pyLower event.title
      !(exclude_keywords.any fun kw => containsSub (pyLower kw) title)

/-! ### Spec-side definitions, used to state claims against the code -/

/-- Spec notion of a separator line: a run of 3 or more dash characters. -/
def isDashRun (line : List Char) : Bool :=
  3 ≤ line.length && line.all (fun c => c = '-')

/-- A field carries the given label: its stripped, lower-cased text starts
with the label. -/
def labelMatch (label p : List Char) : Bool :=
  label.isPrefixOf (pyLower (pyStrip p))

/-- The value carried by a labeled field: the stripped text after the label
of length `k`. -/
def labelValue (k : Nat) (p : List Char) : List Char :=
  pyStrip ((pyStrip p).drop k)

/-- The value of the last field carrying the given label, if any. -/
def lastLabeled (label : List Char) (k : Nat) :
    List (List Char) → Option (List Char)
  | [] => none
  | p :: ps =>
    match lastLabeled label k ps with
    | some v => some v
    | none => if labelMatch label p then some (labelValue k p) else none

/-- An event with the given title and no other data, for concrete examples. -/
def eventTitled (t : List Char) : Event :=
  ⟨t, false, none, none, none, none, none, none⟩

/-! ### Helper lemmas -/

theorem count_dropWhile_of_neg (p : Char → Bool) (a : Char) (h : p a = false) :
    ∀ l : List Char, (l.dropWhile p).count a = l.count a := by
  intro l
  induction l with
  | nil => rfl
  | cons c t ih =>
    by_cases hc : p c
    · have hne : a ≠ c := by
        intro e
        subst e
        rw [h] at hc
        exact Bool.false_ne_true hc
      rw [List.dropWhile_cons, if_pos hc, ih, List.count_cons_of_ne hne]
    · rw [List.dropWhile_cons, if_neg hc]

theorem length_dropWhile_le' (p : Char → Bool) (l : List Char) :
    (l.dropWhile p).length ≤ l.length :=
  (List.dropWhile_sublist p).length_le

theorem matchAnsi_spec : ∀ {xs r : List Char}, matchAnsi xs = some r →
    r.length + 2 ≤ xs.length ∧ r.count '\n' = xs.count '\n' := by
  intro xs r h
  match xs with
  | [] => simp [matchAnsi] at h
  | [e] => simp [matchAnsi] at h
  | e :: c :: rest =>
    simp only [matchAnsi] at h
    by_cases he : e = esc
    · rw [if_pos he] at h
      subst he
      by_cases hfe : isFeByte c
      · rw [if_pos hfe] at h
        cases h
        refine ⟨by simp, ?_⟩
        have hc : '\n' ≠ c := by
          intro hcc
          rw [← hcc] at hfe
          exact absurd hfe (by decide)
        rw [List.count_cons_of_ne (show ('\n' : Char) ≠ esc by decide),
          List.count_cons_of_ne hc]
      · rw [if_neg hfe] at h
        by_cases hbr : c = '['
        · rw [if_pos hbr] at h
          subst hbr
          cases hr2 : (rest.dropWhile isCsiParam).dropWhile isCsiInter with
          | nil => rw [hr2] at h; exact absurd h (by simp)
          | cons f r3 =>
            rw [hr2] at h
            dsimp only at h
            by_cases hf : isCsiFinal f
            · rw [if_pos hf] at h
              cases h
              constructor
              · have h1 := length_dropWhile_le' isCsiParam rest
                have h2 := length_dropWhile_le' isCsiInter (rest.dropWhile isCsiParam)
                rw [hr2] at h2
                simp only [List.length_cons] at h2 ⊢
                omega
              · have e1 := count_dropWhile_of_neg isCsiParam '\n' (by decide) rest
                have e2 := count_dropWhile_of_neg isCsiInter '\n' (by decide)
                  (rest.dropWhile isCsiParam)
                rw [hr2] at e2
                have hfn : '\n' ≠ f := by
                  intro hcc
                  rw [← hcc] at hf
                  exact absurd hf (by decide)
                rw [List.count_cons_of_ne hfn] at e2
                rw [List.count_cons_of_ne (by decide), List.count_cons_of_ne (by decide)]
                omega
            · rw [if_neg hf] at h
              exact absurd h (by simp)
        · rw [if_neg hbr] at h
          exact absurd h (by simp)
    · rw [if_neg he] at h
      exact absurd h (by simp)

theorem matchAnsi_of_ne_esc (x : Char) (xs : List Char) (hx : x ≠ esc) :
    matchAnsi (x :: xs) = none := by
  cases xs with
  | nil => rfl
  | cons c rest => simp [matchAnsi, hx]

theorem stripAnsiFuel_id_of_no_esc : ∀ (n : Nat) (xs : List Char),
    esc ∉ xs → stripAnsiFuel n xs = xs := by
  intro n
  induction n with
  | zero => intro xs _; cases xs <;> rfl
  | succ n ih =>
    intro xs hmem
    cases xs with
    | nil => rfl
    | cons x rest =>
      have hx : x ≠ esc := fun e => hmem (e ▸ List.mem_cons_self x rest)
      rw [stripAnsiFuel, matchAnsi_of_ne_esc x rest hx]
      rw [ih rest fun hr => hmem (List.mem_cons_of_mem x hr)]

theorem stripAnsiFuel_count : ∀ (k n : Nat) (xs : List Char),
    xs.length ≤ n → xs.length ≤ k →
    (stripAnsiFuel n xs).count '\n' = xs.count '\n' := by
  intro k
  induction k with
  | zero =>
    intro n xs h1 h2
    have hz : xs = [] := List.eq_nil_of_length_eq_zero (Nat.le_zero.mp h2)
    subst hz
    cases n <;> rfl
  | succ k ih =>
    intro n xs h1 h2
    match n, xs with
    | nn, [] => cases nn <;> rfl
    | 0, x :: rest => simp at h1
    | n + 1, x :: rest =>
      rw [stripAnsiFuel]
      cases hm : matchAnsi (x :: rest) with
      | some r =>
        obtain ⟨hlen, hcnt⟩ := matchAnsi_spec hm
        simp only [List.length_cons] at h1 h2 hlen
        rw [ih n r (by omega) (by omega), hcnt]
      | none =>
        simp only [List.length_cons] at h1 h2
        rw [List.count_cons, List.count_cons, ih n rest (by omega) (by omega)]

theorem strip_ansi_count_newline (t : List Char) :
    (strip_ansi t).count '\n' = t.count '\n' :=
  stripAnsiFuel_count t.length t.length t (Nat.le_refl _) (Nat.le_refl _)

theorem strip_ansi_id_of_no_esc (t : List Char) (h : esc ∉ t) : strip_ansi t = t :=
  stripAnsiFuel_id_of_no_esc t.length t h

theorem containsSub_eq_decide (sep : List Char) : ∀ xs : List Char,
    containsSub sep xs = decide (sep <:+: xs) := by
  intro xs
  induction xs with
  | nil =>
    cases sep with
    | nil => rfl
    | cons s ss => simp [containsSub, List.infix_nil]
  | cons c rest ih =>
    rw [containsSub, ih]
    cases hp : sep.isPrefixOf (c :: rest) with
    | true =>
      have : sep <+: c :: rest := List.isPrefixOf_iff_prefix.mp hp
      simp [List.infix_cons_iff, this]
    | false =>
      have : ¬ sep <+: c :: rest := fun hpre =>
        Bool.false_ne_true (hp ▸ List.isPrefixOf_iff_prefix.mpr hpre)
      simp [List.infix_cons_iff, this]

theorem foldCont_length (e : List Char) (ls : List (List Char)) :
    (foldCont e ls).2.length ≤ ls.length := by
  induction ls generalizing e with
  | nil => simp [foldCont]
  | cons l rest ih =>
    rw [foldCont]
    split
    · exact (ih _).trans (Nat.le_succ _)
    · simp

theorem foldCont_mem {x : List Char} : ∀ (e : List Char) (ls : List (List Char)),
    x ∈ (foldCont e ls).2 → x ∈ ls := by
  intro e ls
  induction ls generalizing e with
  | nil => simp [foldCont]
  | cons l rest ih =>
    rw [foldCont]
    split
    · intro hx
      exact List.mem_cons_of_mem l (ih _ hx)
    · exact fun hx => hx

theorem assembleFuel_nil (n : Nat) (cal : Option (List Char)) :
    assembleFuel n cal [] = [] := by
  cases n <;> rfl

theorem assembleFuel_congr : ∀ (k n m : Nat) (cal : Option (List Char))
    (ls : List (List Char)), ls.length ≤ n → ls.length ≤ m →
    ls.length ≤ k → assembleFuel n cal ls = assembleFuel m cal ls := by
  intro k
  induction k with
  | zero =>
    intro n m cal ls h1 h2 h3
    rw [List.eq_nil_of_length_eq_zero (Nat.le_zero.mp h3)]
    rw [assembleFuel_nil, assembleFuel_nil]
  | succ k ih =>
    intro n m cal ls h1 h2 h3
    match n, m, ls with
    | nn, mm, [] => rw [assembleFuel_nil, assembleFuel_nil]
    | 0, _, l :: rest => simp at h1
    | _ + 1, 0, l :: rest => simp at h2
    | n + 1, m + 1, l :: rest =>
      simp only [List.length_cons] at h1 h2 h3
      rw [assembleFuel, assembleFuel]
      have hfc := foldCont_length (pyStrip l) rest
      split
      · exact ih n m cal rest (by omega) (by omega) (by omega)
      · split
        · exact ih n m cal rest (by omega) (by omega) (by omega)
        · split
          · exact ih n m _ rest (by omega) (by omega) (by omega)
          · rw [ih n m cal (foldCont (pyStrip l) rest).2 (by omega) (by omega)
              (by omega)]

theorem assemble_skip (cal : Option (List Char)) (l : List Char)
    (ls : List (List Char))
    (h : pyStrip l = [] ∨ isSeparatorLineCode (pyStrip l) = true) :
    assemble cal (l :: ls) = assemble cal ls := by
  rw [assemble, assemble, List.length_cons, assembleFuel]
  by_cases h0 : pyStrip l = []
  · rw [if_pos h0]
  · rcases h with h | h
    · exact absurd h h0
    · rw [if_neg h0, h]
      simp

theorem assemble_header (cal : Option (List Char)) (l : List Char)
    (ls : List (List Char)) (h0 : pyStrip l ≠ [])
    (h1 : isSeparatorLineCode (pyStrip l) = false)
    (h2 : isHeaderLine (pyStrip l) = true) :
    assemble cal (l :: ls) = assemble (some (pyStrip (pyStrip l).dropLast)) ls := by
  rw [assemble, assemble, List.length_cons, assembleFuel, if_neg h0, h1, h2]
  simp

theorem assemble_record (cal : Option (List Char)) (l : List Char)
    (ls : List (List Char)) (h0 : pyStrip l ≠ [])
    (h1 : isSeparatorLineCode (pyStrip l) = false)
    (h2 : isHeaderLine (pyStrip l) = false) :
    assemble cal (l :: ls) =
      (cal, (foldCont (pyStrip l) ls).1) ::
        assemble cal (foldCont (pyStrip l) ls).2 := by
  rw [assemble, assemble, List.length_cons, assembleFuel, if_neg h0, h1, h2]
  simp only [Bool.false_eq_true, if_false]
  congr 1
  exact assembleFuel_congr ls.length ls.length (foldCont (pyStrip l) ls).2.length
    cal _ (foldCont_length _ _) (Nat.le_refl _) (foldCont_length _ _)

theorem assembleFuel_cal_of_no_header : ∀ (n : Nat) (cal : Option (List Char))
    (ls : List (List Char)),
    (∀ l ∈ ls, pyStrip l = [] ∨ isSeparatorLineCode (pyStrip l) = true ∨
      isHeaderLine (pyStrip l) = false) →
    ∀ p ∈ assembleFuel n cal ls, p.1 = cal := by
  intro n
  induction n with
  | zero =>
    intro cal ls _ p hp
    cases ls with
    | nil => simp [assembleFuel_nil] at hp
    | cons l rest => simp [assembleFuel] at hp
  | succ n ih =>
    intro cal ls hls p hp
    cases ls with
    | nil => simp [assembleFuel_nil] at hp
    | cons l rest =>
      rw [assembleFuel] at hp
      have hrest : ∀ l' ∈ rest, pyStrip l' = [] ∨
          isSeparatorLineCode (pyStrip l') = true ∨
          isHeaderLine (pyStrip l') = false :=
        fun l' hl' => hls l' (List.mem_cons_of_mem l hl')
      by_cases hb : pyStrip l = []
      · rw [if_pos hb] at hp
        exact ih cal rest hrest p hp
      · rw [if_neg hb] at hp
        rcases hls l (List.mem_cons_self l rest) with h | h | h
        · exact absurd h hb
        · rw [if_pos h] at hp
          exact ih cal rest hrest p hp
        · by_cases hs : isSeparatorLineCode (pyStrip l) = true
          · rw [if_pos hs] at hp
            exact ih cal rest hrest p hp
          · rw [if_neg hs, if_neg (fun hh : isHeaderLine (pyStrip l) = true =>
              Bool.false_ne_true (h ▸ hh))] at hp
            rcases List.mem_cons.mp hp with h' | h'
            · rw [h']
            · refine ih cal _ ?_ p h'
              exact fun l' hl' => hrest l' (foldCont_mem _ _ hl')

theorem isDashRun_imp_code (line : List Char) (h : isDashRun line = true) :
    isSeparatorLineCode line = true := by
  match line with
  | [] => simp [isDashRun] at h
  | [a] => simp [isDashRun] at h
  | [a, b] => simp [isDashRun] at h
  | a :: b :: c :: rest =>
    simp only [isDashRun, List.all_cons, Bool.and_eq_true, decide_eq_true_eq] at h
    obtain ⟨-, ha, hb, hc, -⟩ := h
    subst ha; subst hb; subst hc
    apply List.isPrefixOf_iff_prefix.mpr
    exact ⟨rest, rfl⟩

theorem applyProp_start_time (e : Event) (p : List Char) :
    (applyProp e p).start_time = e.start_time := by
  simp only [applyProp]
  split_ifs <;> rfl

theorem foldl_applyProp_start_time : ∀ (props : List (List Char)) (e : Event),
    (props.foldl applyProp e).start_time = e.start_time := by
  intro props
  induction props with
  | nil => intro e; rfl
  | cons p ps ih => intro e; rw [List.foldl_cons, ih, applyProp_start_time]

theorem parseChunk_cases (ad : Bool) (cal : Option (List Char))
    (chunk : List Char) :
    parseChunk ad cal chunk = none ∨
    ∃ ev, parseChunk ad cal chunk = some ev ∧
      pyTruthyOpt ev.start_time = true ∧
      ev.start_time = (if (splitOnL " :: ".data (pyStrip chunk)).getD 1 [] ≠ [] then
        parse_datetime_range
          (pyStrip ((splitOnL " :: ".data (pyStrip chunk)).getD 1 [])) ad
        else (none, none)).1 ∧
      ¬ (splitOnL " :: ".data (pyStrip chunk)).length < 2 := by
  simp only [parseChunk]
  split_ifs <;>
    first
    | exact Or.inl rfl
    | (rename_i htruthy
       refine Or.inr ⟨_, rfl, htruthy, ?_, by assumption⟩
       rw [foldl_applyProp_start_time])

theorem heads_distinct {c1 c2 : Char} {r1 r2 s : List Char} (hne : c1 ≠ c2)
    (h1 : (c1 :: r1).isPrefixOf s = true)
    (h2 : (c2 :: r2).isPrefixOf s = true) : False := by
  obtain ⟨t1, e1⟩ := List.isPrefixOf_iff_prefix.mp h1
  obtain ⟨t2, e2⟩ := List.isPrefixOf_iff_prefix.mp h2
  rw [← e1] at e2
  simp only [List.cons_append] at e2
  injection e2 with hh _
  exact hne hh.symm

theorem applyProp_location (e : Event) (p : List Char) :
    (applyProp e p).location =
      if labelMatch "location:".data p = true then some (labelValue 9 p)
      else e.location := by
  simp only [applyProp, labelMatch, labelValue]
  by_cases h0 : pyStrip p = []
  · rw [if_pos h0, h0, if_neg (by decide)]
  · rw [if_neg h0]
    by_cases hl : "location:".data.isPrefixOf (pyLower (pyStrip p)) = true
    · rw [if_pos hl, if_pos hl]
    · rw [if_neg hl, if_neg hl]
      by_cases hn : "notes:".data.isPrefixOf (pyLower (pyStrip p)) = true
      · rw [if_pos hn]
      · rw [if_neg hn]
        by_cases hu : "uid:".data.isPrefixOf (pyLower (pyStrip p)) = true
        · rw [if_pos hu]
        · rw [if_neg hu]

theorem applyProp_notes (e : Event) (p : List Char) :
    (applyProp e p).notes =
      if labelMatch "notes:".data p = true then some (labelValue 6 p)
      else e.notes := by
  simp only [applyProp, labelMatch, labelValue]
  by_cases h0 : pyStrip p = []
  · rw [if_pos h0, h0, if_neg (by decide)]
  · rw [if_neg h0]
    by_cases hl : "location:".data.isPrefixOf (pyLower (pyStrip p)) = true
    · have hn : ¬ "notes:".data.isPrefixOf (pyLower (pyStrip p)) = true := by
        intro hn
        rw [show "location:".data = 'l' :: "ocation:".data from rfl] at hl
        rw [show "notes:".data = 'n' :: "otes:".data from rfl] at hn
        exact heads_distinct (by decide) hl hn
      rw [if_pos hl, if_neg hn]
    · rw [if_neg hl]
      by_cases hn : "notes:".data.isPrefixOf (pyLower (pyStrip p)) = true
      · rw [if_pos hn, if_pos hn]
      · rw [if_neg hn, if_neg hn]
        by_cases hu : "uid:".data.isPrefixOf (pyLower (pyStrip p)) = true
        · rw [if_pos hu]
        · rw [if_neg hu]

theorem applyProp_external_id (e : Event) (p : List Char) :
    (applyProp e p).external_id =
      if labelMatch "uid:".data p = true then some (labelValue 4 p)
      else e.external_id := by
  simp only [applyProp, labelMatch, labelValue]
  by_cases h0 : pyStrip p = []
  · rw [if_pos h0, h0, if_neg (by decide)]
  · rw [if_neg h0]
    by_cases hl : "location:".data.isPrefixOf (pyLower (pyStrip p)) = true
    · have hu : ¬ "uid:".data.isPrefixOf (pyLower (pyStrip p)) = true := by
        intro hu
        rw [show "location:".data = 'l' :: "ocation:".data from rfl] at hl
        rw [show "uid:".data = 'u' :: "id:".data from rfl] at hu
        exact heads_distinct (by decide) hl hu
      rw [if_pos hl, if_neg hu]
    · rw [if_neg hl]
      by_cases hn : "notes:".data.isPrefixOf (pyLower (pyStrip p)) = true
      · have hu : ¬ "uid:".data.isPrefixOf (pyLower (pyStrip p)) = true := by
          intro hu
          rw [show "notes:".data = 'n' :: "otes:".data from rfl] at hn
          rw [show "uid:".data = 'u' :: "id:".data from rfl] at hu
          exact heads_distinct (by decide) hn hu
        rw [if_pos hn, if_neg hu]
      · rw [if_neg hn]
        by_cases hu : "uid:".data.isPrefixOf (pyLower (pyStrip p)) = true
        · rw [if_pos hu, if_pos hu]
        · rw [if_neg hu, if_neg hu]

theorem foldl_applyProp_location : ∀ (props : List (List Char)) (e : Event),
    (props.foldl applyProp e).location =
      (lastLabeled "location:".data 9 props).or e.location := by
  intro props
  induction props with
  | nil => intro e; rfl
  | cons p ps ih =>
    intro e
    rw [List.foldl_cons, ih, lastLabeled]
    cases hl : lastLabeled "location:".data 9 ps with
    | some v => rfl
    | none =>
      rw [applyProp_location]
      cases hm : labelMatch "location:".data p with
      | true => simp
      | false => simp

theorem foldl_applyProp_notes : ∀ (props : List (List Char)) (e : Event),
    (props.foldl applyProp e).notes =
      (lastLabeled "notes:".data 6 props).or e.notes := by
  intro props
  induction props with
  | nil => intro e; rfl
  | cons p ps ih =>
    intro e
    rw [List.foldl_cons, ih, lastLabeled]
    cases hl : lastLabeled "notes:".data 6 ps with
    | some v => rfl
    | none =>
      rw [applyProp_notes]
      cases hm : labelMatch "notes:".data p with
      | true => simp
      | false => simp

theorem foldl_applyProp_external_id : ∀ (props : List (List Char)) (e : Event),
    (props.foldl applyProp e).external_id =
      (lastLabeled "uid:".data 4 props).or e.external_id := by
  intro props
  induction props with
  | nil => intro e; rfl
  | cons p ps ih =>
    intro e
    rw [List.foldl_cons, ih, lastLabeled]
    cases hl : lastLabeled "uid:".data 4 ps with
    | some v => rfl
    | none =>
      rw [applyProp_external_id]
      cases hm : labelMatch "uid:".data p with
      | true => simp
      | false => simp

theorem filterPred_eq_decide (title : List Char) : ∀ kws : List (List Char),
    (!(kws.any fun kw => containsSub (pyLower kw) title)) =
      decide (∀ kw ∈ kws, ¬ List.IsInfix (pyLower kw) title) := by
  intro kws
  induction kws with
  | nil => simp
  | cons k ks ih =>
    rw [List.any_cons, Bool.not_or, ih, containsSub_eq_decide]
    simp

/-! ### Claims -/

/-- C1: for every input text and `all_day` flag, every event record returned by
`parse_icalbuddy_output` has a non-`None` `start_time`; a fragment with fewer
than 2 fields, or whose datetime field fails to resolve a start instant,
contributes no record to the output (silently dropped, no error raised — the
embedding is a total function). -/
theorem C1_every_event_has_start_time :
    (∀ (output : List Char) (ad : Bool) (ev : Event),
        ev ∈ parse_icalbuddy_output output ad → ev.start_time ≠ none) ∧
    (∀ (ad : Bool) (cal : Option (List Char)) (chunk : List Char),
        (splitOnL " :: ".data (pyStrip chunk)).length < 2 →
        parseChunk ad cal chunk = none) ∧
    (∀ (ad : Bool) (cal : Option (List Char)) (chunk : List Char),
        (parse_datetime_range
          (pyStrip ((splitOnL " :: ".data (pyStrip chunk)).getD 1 [])) ad).1 =
            none →
        parseChunk ad cal chunk = none) := by
  refine ⟨?_, ?_, ?_⟩
  · intro output ad ev hmem
    simp only [parse_icalbuddy_output] at hmem
    split at hmem
    · simp at hmem
    · rw [List.mem_flatMap] at hmem
      obtain ⟨part, -, hin⟩ := hmem
      rw [List.mem_filterMap] at hin
      obtain ⟨chunk, -, hpc⟩ := hin
      rcases parseChunk_cases ad part.1 chunk with hnone | ⟨ev', heq, htr, -, -⟩
      · rw [hnone] at hpc
        exact absurd hpc (by simp)
      · rw [heq] at hpc
        injection hpc with hpc
        subst hpc
        intro hst
        rw [hst] at htr
        exact absurd htr (by decide)
  · intro ad cal chunk h
    rcases parseChunk_cases ad cal chunk with hnone | ⟨ev, -, -, -, hlen⟩
    · exact hnone
    · exact absurd h hlen
  · intro ad cal chunk h
    rcases parseChunk_cases ad cal chunk with hnone | ⟨ev, heq, htr, hstart, -⟩
    · exact hnone
    · have hnone' : ev.start_time = none := by
        rw [hstart]
        split
        · exact h
        · rfl
      rw [hnone'] at htr
      exact absurd htr (by decide)

/-- Witness for C1: a concrete returned event has a start time, and fragments
with one field or an unresolvable datetime field are dropped. -/
theorem C1_witness :
    (⟨"A".data, false, none, some "2024-03-01T00:00:00".data, none, none, none,
        none⟩ : Event).start_time ≠ none ∧
    parseChunk false none "OnlyTitle".data = none ∧
    parseChunk false none "A :: garbled".data = none :=
  ⟨C1_every_event_has_start_time.1 "|||A :: 2024-03-01".data false _ (by decide),
   C1_every_event_has_start_time.2.1 false none "OnlyTitle".data (by decide),
   C1_every_event_has_start_time.2.2 false none "A :: garbled".data (by decide)⟩

/-- C2: for a datetime string containing " - " whose left half parses but whose
right half fails both the direct flexible parse and the retry combining the
start's date with the right half, `parse_datetime_range` returns
`(start, none)`: only the end is lost. -/
theorem C2_end_failure_keeps_start (s : List Char) (ad : Bool)
    (p0 p1 : List Char) (start_dt : PyDateTime)
    (hsplit : splitFirst " - ".data (afterAt s) = some (p0, p1))
    (hstart : parse_flexible_datetime (pyStrip p0) = some start_dt)
    (hend1 : parse_flexible_datetime (pyStrip p1) = none)
    (hend2 : parse_flexible_datetime
      (dateStr start_dt ++ ['T'] ++ pyStrip p1) = none) :
    parse_datetime_range s ad = (some (isoformat start_dt), none) := by
  simp only [parse_datetime_range, hsplit, hstart]
  by_cases hp : pyStrip p1 = []
  · simp [hp]
  · rw [if_pos hp]
    simp only [hend1, hend2]

/-- Witness for C2: a parseable start with an unparseable end keeps the start. -/
theorem C2_witness :
    parse_datetime_range "2024-03-01T10:00:00 - zzz".data false =
      (some "2024-03-01T10:00:00".data, none) :=
  C2_end_failure_keeps_start "2024-03-01T10:00:00 - zzz".data false
    "2024-03-01T10:00:00".data "zzz".data ⟨2024, 3, 1, 10, 0, 0⟩
    (by decide) (by decide) (by decide) (by decide)

/-- C3: the datetime field `2024-03-01T10:00:00 - 11:00:00` resolves to a start
of `2024-03-01T10:00:00` and an end of `2024-03-01T11:00:00`, the end's date
borrowed from the parsed start. -/
theorem C3_bare_time_end_recovery :
    parse_datetime_range "2024-03-01T10:00:00 - 11:00:00".data false =
      (some "2024-03-01T10:00:00".data, some "2024-03-01T11:00:00".data) := by
  decide

/-- C4 counterexample: `strip_ansi` is not idempotent.  Stripping the CSI
sequence from ESC ESC `[0m` A leaves ESC A, itself a matching escape sequence
that a second pass removes. -/
theorem C4_counterexample :
    strip_ansi (strip_ansi [esc, esc, '[', '0', 'm', 'A']) ≠
      strip_ansi [esc, esc, '[', '0', 'm', 'A'] := by decide

/-- C4 (amended): `strip_ansi` never removes or inserts newline characters, so
line boundaries are preserved; and on text containing no ESC character —
already-sanitized in the sense of being free of escape-introducing bytes —
it is the identity (hence idempotent there).  Unrestricted idempotence fails,
see the counterexample. -/
theorem C4_newline_preservation_and_esc_free_identity :
    (∀ t : List Char, (strip_ansi t).count '\n' = t.count '\n') ∧
    (∀ t : List Char, esc ∉ t → strip_ansi t = t) :=
  ⟨strip_ansi_count_newline, strip_ansi_id_of_no_esc⟩

/-- Witness for C4 on a concrete two-line ESC-free text. -/
theorem C4_witness :
    strip_ansi "ab\ncd".data = "ab\ncd".data ∧
    (strip_ansi "ab\ncd".data).count '\n' = ("ab\ncd".data).count '\n' :=
  ⟨C4_newline_preservation_and_esc_free_identity.2 _ (by decide),
   C4_newline_preservation_and_esc_free_identity.1 _⟩

/-- C5 counterexample: the line `---:` is non-blank, ends with a colon and
contains neither delimiter, so by the claim it should become a header named
`---`; but the code skips it as a separator line, and the following record
keeps `calendar_name = none`. -/
theorem C5_counterexample :
    (pyStrip "---:".data ≠ [] ∧ isHeaderLine "---:".data = true ∧
      isSeparatorLineCode "---:".data = true) ∧
    (parse_icalbuddy_output "---:\n|||A :: 2024-03-01".data false).map
      Event.calendar_name = [none] := by decide

/-- C5 (amended): a non-blank line that is not discarded by the separator rule
(its stripped text does not start with three dashes) is treated as a header
exactly when it ends with a colon and contains neither `|||` nor ` :: `; the
header's name scopes forward to subsequent records, a non-header line starts a
record tagged with the current calendar name, and over a stretch with no
effective header every record keeps the incoming calendar name (`none` before
any header). -/
theorem C5_header_scoping :
    (∀ (cal : Option (List Char)) (l : List Char) (ls : List (List Char)),
        pyStrip l ≠ [] → isSeparatorLineCode (pyStrip l) = false →
        isHeaderLine (pyStrip l) = true →
        assemble cal (l :: ls) =
          assemble (some (pyStrip (pyStrip l).dropLast)) ls) ∧
    (∀ (cal : Option (List Char)) (l : List Char) (ls : List (List Char)),
        pyStrip l ≠ [] → isSeparatorLineCode (pyStrip l) = false →
        isHeaderLine (pyStrip l) = false →
        assemble cal (l :: ls) =
          (cal, (foldCont (pyStrip l) ls).1) ::
            assemble cal (foldCont (pyStrip l) ls).2) ∧
    (∀ (cal : Option (List Char)) (ls : List (List Char)),
        (∀ l ∈ ls, pyStrip l = [] ∨ isSeparatorLineCode (pyStrip l) = true ∨
          isHeaderLine (pyStrip l) = false) →
        ∀ p ∈ assemble cal ls, p.1 = cal) :=
  ⟨assemble_header, assemble_record,
   fun cal ls h p hp => assembleFuel_cal_of_no_header ls.length cal ls h p hp⟩

/-- Witness for C5: a concrete header line rescopes the calendar, a concrete
record line is emitted under the current calendar, and a headerless stretch
keeps the incoming name. -/
theorem C5_witness :
    assemble none ["Work:".data, "|||A :: B".data] =
      assemble (some "Work".data) ["|||A :: B".data] ∧
    assemble none ["|||A :: B".data] =
      (none, (foldCont (pyStrip "|||A :: B".data) []).1) ::
        assemble none (foldCont (pyStrip "|||A :: B".data) []).2 ∧
    ((some "W".data, "|||A :: B".data) :
        Option (List Char) × List Char).1 = some "W".data :=
  ⟨C5_header_scoping.1 none "Work:".data _ (by decide) (by decide) (by decide),
   C5_header_scoping.2.1 none "|||A :: B".data [] (by decide) (by decide)
     (by decide),
   C5_header_scoping.2.2 (some "W".data) ["|||A :: B".data] (by decide)
     (some "W".data, "|||A :: B".data) (by decide)⟩

/-- C6: the full round trip on the single-line input with title, datetime
range, location, notes and uid yields exactly one event with all attributes
extracted. -/
theorem C6_full_round_trip :
    parse_icalbuddy_output
      ("|||Team Sync :: 2024-03-01T10:00:00 - 2024-03-01T11:00:00 :: location: Room A :: notes: bring laptop :: uid: abc-123".data)
      false =
    [⟨"Team Sync".data, false, some "abc-123".data,
      some "2024-03-01T10:00:00".data, some "2024-03-01T11:00:00".data,
      some "Room A".data, some "bring laptop".data, none⟩] := by decide

/-- C7: `filter_events` with an empty keyword list is the identity; in general
it returns, in order, exactly the events whose lower-cased title contains no
lower-cased keyword as a substring; with events titled `Dentist` and
`Team Sync` and keyword `dent`, only `Team Sync` remains. -/
theorem C7_keyword_filter :
    (∀ evs : List Event, filter_events evs [] = evs) ∧
    (∀ (evs : List Event) (kws : List (List Char)),
        filter_events evs kws = evs.filter fun ev =>
          decide (∀ kw ∈ kws, ¬ List.IsInfix (pyLower kw) (pyLower ev.title))) ∧
    filter_events [eventTitled "Dentist".data, eventTitled "Team Sync".data]
        ["dent".data] = [eventTitled "Team Sync".data] := by
  refine ⟨fun evs => rfl, ?_, by decide⟩
  intro evs kws
  rw [filter_events]
  by_cases hk : kws = []
  · subst hk
    rw [if_pos rfl]
    simp
  · rw [if_neg hk]
    apply List.filter_congr
    intro ev _
    exact filterPred_eq_decide (pyLower ev.title) kws

/-- C8 counterexample: the line `--- 2024-03-01 :: 2024-03-02` is non-blank,
not a run of dashes and not a header, so by the claim it should contribute a
record (and does yield one event when the dashes are replaced); but the code
discards any line starting with three dashes, producing no record. -/
theorem C8_counterexample :
    (pyStrip "--- 2024-03-01 :: 2024-03-02".data =
        "--- 2024-03-01 :: 2024-03-02".data ∧
      isDashRun "--- 2024-03-01 :: 2024-03-02".data = false ∧
      isHeaderLine "--- 2024-03-01 :: 2024-03-02".data = false ∧
      "--- 2024-03-01 :: 2024-03-02".data ≠ []) ∧
    assemble none ["--- 2024-03-01 :: 2024-03-02".data] = [] ∧
    parse_icalbuddy_output "--- 2024-03-01 :: 2024-03-02".data false = [] ∧
    (parse_icalbuddy_output "xxx 2024-03-01 :: 2024-03-02".data false).length =
      1 := by decide

/-- C8 (amended): blank lines and lines whose stripped text starts with three
dashes (in particular every run of 3 or more dashes) are discarded without
changing state; every other non-blank line is classified as a header or starts
a record. -/
theorem C8_line_skipping :
    (∀ (cal : Option (List Char)) (l : List Char) (ls : List (List Char)),
        pyStrip l = [] ∨ isSeparatorLineCode (pyStrip l) = true →
        assemble cal (l :: ls) = assemble cal ls) ∧
    (∀ line : List Char, isDashRun line = true →
        isSeparatorLineCode line = true) ∧
    (∀ (cal : Option (List Char)) (l : List Char) (ls : List (List Char)),
        pyStrip l ≠ [] → isSeparatorLineCode (pyStrip l) = false →
        assemble cal (l :: ls) =
            assemble (some (pyStrip (pyStrip l).dropLast)) ls ∨
        assemble cal (l :: ls) =
          (cal, (foldCont (pyStrip l) ls).1) ::
            assemble cal (foldCont (pyStrip l) ls).2) := by
  refine ⟨assemble_skip, isDashRun_imp_code, ?_⟩
  intro cal l ls h0 h1
  cases hh : isHeaderLine (pyStrip l) with
  | true => exact Or.inl (assemble_header cal l ls h0 h1 hh)
  | false => exact Or.inr (assemble_record cal l ls h0 h1 hh)

/-- Witness for C8: a dash line is skipped, a dash run is a code separator, and
a non-skipped line is classified. -/
theorem C8_witness :
    assemble none ["---".data, "|||A :: B".data] =
      assemble none ["|||A :: B".data] ∧
    isSeparatorLineCode "----".data = true ∧
    (assemble none ["Work:".data] = assemble (some "Work".data) [] ∨
      assemble none ["Work:".data] =
        (none, (foldCont (pyStrip "Work:".data) []).1) ::
          assemble none (foldCont (pyStrip "Work:".data) []).2) :=
  ⟨C8_line_skipping.1 none "---".data _ (Or.inr (by decide)),
   C8_line_skipping.2.1 "----".data (by decide),
   C8_line_skipping.2.2 none "Work:".data [] (by decide) (by decide)⟩

/-- C9: the parsing engine is deterministic given its inputs: any two runs of
`parse_icalbuddy_output` (and of `parse_datetime_range`) on the same inputs
produce the same output — in this embedding both are pure functions with no
dependence on when they run. -/
theorem C9_deterministic :
    (∀ (output : List Char) (ad : Bool) (r1 r2 : List Event),
        r1 = parse_icalbuddy_output output ad →
        r2 = parse_icalbuddy_output output ad → r1 = r2) ∧
    (∀ (s : List Char) (ad : Bool)
        (r1 r2 : Option (List Char) × Option (List Char)),
        r1 = parse_datetime_range s ad → r2 = parse_datetime_range s ad →
        r1 = r2) := by
  constructor <;> (intro _ _ r1 r2 h1 h2; rw [h1, h2])

/-- Witness for C9 at a concrete input. -/
theorem C9_witness :
    parse_icalbuddy_output "|||A :: 2024-03-01".data false =
      parse_icalbuddy_output "|||A :: 2024-03-01".data false :=
  C9_deterministic.1 "|||A :: 2024-03-01".data false _ _ rfl rfl

/-- C10: in the labeled-property loop, when several fields carry the same
recognized label, the attribute receives the value of the last such field
(earlier values are overwritten); concretely, two `location:` fields leave the
second one. -/
theorem C10_last_labeled_field_wins :
    (∀ (ev : Event) (props : List (List Char)),
      ((props.foldl applyProp ev).location =
        (lastLabeled "location:".data 9 props).or ev.location) ∧
      ((props.foldl applyProp ev).notes =
        (lastLabeled "notes:".data 6 props).or ev.notes) ∧
      ((props.foldl applyProp ev).external_id =
        (lastLabeled "uid:".data 4 props).or ev.external_id)) ∧
    (parse_icalbuddy_output
        "|||A :: 2024-03-01 :: location: X :: location: Y".data false).map
      Event.location = [some "Y".data] :=
  ⟨fun ev props => ⟨foldl_applyProp_location props ev,
    foldl_applyProp_notes props ev, foldl_applyProp_external_id props ev⟩,
   by decide⟩

end Datestack
